import Mathlib

set_option maxHeartbeats 1000000

namespace ShubWorkflow

/-! # Shallow embedding of `shub_workflow/graph/__init__.py` (class `GraphManager`)

Modelling conventions:
* Python dicts with optional keys become structures with `Option` fields;
  `d.get(k, default)` becomes `Option.getD`.
* Ordered dicts (`jobs_graph`, `__pending_jobs`, `__running_jobs`,
  `_acquired_resources`) become association lists in insertion order;
  assignment to an existing key updates the entry in place, assignment to a
  fresh key appends (matching `OrderedDict` / `dict` semantics).
* `_available_resources` is modelled as a total map `String → ℚ`: missing keys
  read as `0`, matching `dict.get(res_name, 0)` in `_fill_available_resources`
  (the only read of a possibly-missing key on the happy path).
* Python `set` objects become duplicate-free lists (first-occurrence order);
  the operations used on them (`add`, `discard`, emptiness, membership,
  iteration with `all`) are order-insensitive.
* Resource amounts (ints and `fractions.Fraction`) become `ℚ`.
* `argparser.error` / `KeyError` (both abort the process) become
  `Except.error`; backend calls (`schedule_script`, `is_finished`) become
  function parameters.  Structured logging is elided.
-/

/-- One resource set: an ordered mapping resource name → amount.  A task's
`required_resources` is a list of such sets (disjunctive choice). -/
abbrev ResourceSet := List (String × ℚ)

/-- A `jobs_graph` entry: the task declaration dict.  Optional dict keys are
`Option` fields.  Opaque backend metadata (`tags`, `units`, `project_id`,
`hidden_args`) plays no role in any claim and is elided. -/
structure JobConf where
  command : String := ""
  init_args : Option (List String) := none
  retry_args : Option (List String) := none
  required_resources : Option (List ResourceSet) := none
  wait_for : Option (List String) := none
  wait_time : Option ℚ := none
  retries : Option Nat := none
  on_finish : Option (List (String × List String)) := none
  parallel_arg : Option String := none
  deriving DecidableEq

/-- A `__pending_jobs` entry (see `_add_pending_job`): `wait_for` is a Python
set (duplicate-free list here); `origin` is only set on fan-out units. -/
structure PendingConf where
  wait_for : List String
  retries : Nat
  required_resources : List ResourceSet
  origin : Option String
  wait_time : Option ℚ
  deriving DecidableEq

/-- The resource ledger: `_available_resources` (total map, default 0) and
`_acquired_resources` (a `defaultdict(list)`: association list from resource
name to the list of `(job, amount)` entries, missing keys read as `[]`). -/
structure Ledger where
  available : String → ℚ
  acquired : List (String × List (String × ℚ))

/-- The mutable scheduler state held on the `GraphManager` instance. -/
structure GMState where
  jobsGraph : List (String × JobConf)
  pending : List (String × PendingConf)
  running : List (String × Option String)
  ledger : Ledger

/-- External collaborators and CLI arguments, fixed for a run. -/
structure Params where
  isFinished : Option String → Option String
  sched : String → Nat → Option String
  failedOutcomes : List String
  onlyStartingJobs : Bool
  parallelization : Nat
  maxRunningJobs : Option Nat
  elapsed : ℚ

namespace alist

/-- Dict lookup on an association list. -/
def lookup {α : Type} (l : List (String × α)) (k : String) : Option α :=
  match l with
  | [] => none
  | (k1, v) :: rest => if k1 = k then some v else lookup rest k

/-- Dict assignment `d[k] = v`: update in place if present, else append. -/
def insert {α : Type} (l : List (String × α)) (k : String) (v : α) :
    List (String × α) :=
  match l with
  | [] => [(k, v)]
  | (k1, v1) :: rest => if k1 = k then (k, v) :: rest else (k1, v1) :: insert rest k v

/-- Dict deletion `del d[k]` / `d.pop(k)` (dicts never hold duplicate keys, so
removing every entry with key `k` agrees with removing the single one). -/
def erase {α : Type} (l : List (String × α)) (k : String) : List (String × α) :=
  l.filter (fun p => p.1 ≠ k)

theorem lookup_insert {α : Type} (l : List (String × α)) (k k1 : String) (v : α) :
    lookup (insert l k v) k1 = if k1 = k then some v else lookup l k1 := by
  induction l with
  | nil =>
    simp only [insert, lookup]
    by_cases h : k = k1
    · subst h; simp
    · rw [if_neg h, if_neg (fun h2 => h h2.symm)]
  | cons hd t ih =>
    obtain ⟨k2, v2⟩ := hd
    by_cases hk2 : k2 = k
    · subst hk2
      simp only [insert, if_pos rfl, lookup]
      by_cases h1 : k2 = k1
      · subst h1; simp
      · rw [if_neg h1, if_neg (fun h2 => h1 h2.symm)]
        simp only [lookup, if_neg h1]
    · simp only [insert, if_neg hk2, lookup]
      by_cases h2 : k2 = k1
      · subst h2
        rw [if_pos rfl, if_neg (fun h3 => hk2 h3), if_pos rfl]
      · rw [if_neg h2, ih]
        by_cases h3 : k1 = k
        · simp [h3]
        · rw [if_neg h3, if_neg h3]
          simp only [lookup, if_neg h2]

theorem lookup_map {α β : Type} (f : α → β) (l : List (String × α)) (k : String) :
    lookup (l.map (fun p => (p.1, f p.2))) k = (lookup l k).map f := by
  induction l with
  | nil => simp [lookup]
  | cons h t ih =>
    obtain ⟨k1, v1⟩ := h
    by_cases hk : k1 = k <;> simp [lookup, hk, ih]

theorem keys_insert {α : Type} (l : List (String × α)) (k : String) (v : α) :
    (insert l k v).map Prod.fst = if (lookup l k).isSome
      then l.map Prod.fst else l.map Prod.fst ++ [k] := by
  induction l with
  | nil => simp [insert, lookup]
  | cons h t ih =>
    obtain ⟨k1, v1⟩ := h
    by_cases hk : k1 = k
    · subst hk; simp [insert, lookup]
    · simp [insert, hk, lookup, ih]
      split <;> simp

end alist

/-- Python `set(l)`: deduplicate, keeping first occurrences. -/
def setOfList (l : List String) : List String :=
  l.foldl (fun acc x => if x ∈ acc then acc else acc ++ [x]) []

/-- Python `s.add(x)` on a set modelled as a duplicate-free list. -/
def setAdd (s : List String) (x : String) : List String :=
  if x ∈ s then s else s ++ [x]

/-- Python `s.discard(x)`. -/
def setDiscard (s : List String) (x : String) : List String :=
  s.filter (fun y => y ≠ x)

/-- Pointwise update of the total map modelling `_available_resources`. -/
def updRes (f : String → ℚ) (k : String) (v : ℚ) : String → ℚ :=
  fun x => if x = k then v else f x

/-- The `(job, amount)` entries recorded for resource `r`
(`self._acquired_resources[r]`, reading `[]` for a missing key). -/
def acquiredOf (acq : List (String × List (String × ℚ))) (r : String) :
    List (String × ℚ) :=
  (alist.lookup acq r).getD []

/-- Sum of the amounts in an acquired-entries list. -/
def sumAmounts (l : List (String × ℚ)) : ℚ :=
  (l.map Prod.snd).sum

/-- `_fill_available_resources`, inner update: for one `(res_name, res_amount)`
occurrence, raise the available amount if it was not enough. -/
def fillStep (f : String → ℚ) (p : String × ℚ) : String → ℚ :=
  if f p.1 < p.2 then updRes f p.1 p.2 else f

/-- All `(res_name, res_amount)` occurrences in the graph, in traversal order
of `_fill_available_resources` (jobs, then each job's resource sets, then each
set's items). -/
def resourceOccurrences (g : List (String × JobConf)) : List (String × ℚ) :=
  g.flatMap (fun jc => (jc.2.required_resources.getD []).flatMap (fun s => s))

/-- `_fill_available_resources`: starting from an empty dict (total map 0),
fold the update over every resource occurrence of the graph. -/
def fillAvailable (g : List (String × JobConf)) : String → ℚ :=
  (resourceOccurrences g).foldl fillStep (fun _ => 0)

/-- The ledger right after `__init__` + `_fill_available_resources`:
available filled from the graph, nothing acquired. -/
def Ledger.init (g : List (String × JobConf)) : Ledger :=
  ⟨fillAvailable g, []⟩

/-- Amounts recorded for resource `r` anywhere in the graph. -/
def amountsOf (g : List (String × JobConf)) (r : String) : List ℚ :=
  ((resourceOccurrences g).filter (fun p => p.1 = r)).map Prod.snd

/-- The spec's initial-capacity formula, following its words: "the maximum
amount of r appearing in any resource set of any task" (`0` when `r` appears
nowhere; amounts are non-negative per the spec's data model, under which the
fold below is exactly that maximum). -/
def specInitialCapacity (g : List (String × JobConf)) (r : String) : ℚ :=
  (amountsOf g r).foldl max 0

/-- Check loop of `_try_acquire_resources` for one resource set: every
resource must have `available[res_name] >= res_amount` (the source breaks out
as soon as `self._available_resources[res_name] < res_amount`). -/
def setFits (avail : String → ℚ) (s : ResourceSet) : Bool :=
  s.all (fun p => !decide (avail p.1 < p.2))

/-- Acquisition of one fitting set (the `else` clause of the inner loop):
subtract each amount from available and append a `(job, amount)` entry to
`acquired[res_name]`. -/
def acquireSet (job : String) (s : ResourceSet) (st : Ledger) : Ledger :=
  s.foldl (fun st p =>
    ⟨updRes st.available p.1 (st.available p.1 - p.2),
     alist.insert st.acquired p.1 (acquiredOf st.acquired p.1 ++ [(job, p.2)])⟩) st

/-- First-fit search over the (non-empty) list of resource sets: the source's
outer loop once at least one set has been examined. -/
def firstFit (job : String) (sets : List ResourceSet) (st : Ledger) : Bool × Ledger :=
  match sets with
  | [] => (false, st)
  | s :: rest =>
      if setFits st.available s then (true, acquireSet job s st)
      else firstFit job rest st

/-- `_try_acquire_resources` over the job's declared resource sets (the caller
fetches them via `self.get_job(job).get('required_resources', [])`).  With no
sets at all the loop body never runs and the initial `result = True` is
returned unchanged. -/
def tryAcquireResources (job : String) (sets : List ResourceSet) (st : Ledger) :
    Bool × Ledger :=
  match sets with
  | [] => (true, st)
  | _ => firstFit job sets st

/-- Python `list.remove(x)`: drop the first element equal to `x`. -/
def removeFirst (x : String × ℚ) : List (String × ℚ) → List (String × ℚ)
  | [] => []
  | y :: ys => if y = x then ys else y :: removeFirst x ys

theorem removeFirst_length_lt (x : String × ℚ) (l : List (String × ℚ))
    (h : x ∈ l) : (removeFirst x l).length < l.length := by
  induction l with
  | nil => cases h
  | cons y ys ih =>
    by_cases hy : y = x
    · simp [removeFirst, hy]
    · have hx : x ∈ ys := by
        cases h with
        | head => exact absurd rfl hy
        | tail _ h => exact h
      simp only [removeFirst, if_neg hy, List.length_cons]
      exact Nat.succ_lt_succ (ih hx)

theorem removeFirst_sum (x : String × ℚ) (l : List (String × ℚ)) (h : x ∈ l) :
    sumAmounts (removeFirst x l) = sumAmounts l - x.2 := by
  induction l with
  | nil => cases h
  | cons y ys ih =>
    by_cases hy : y = x
    · subst hy; simp [removeFirst, sumAmounts]
    · have hx : x ∈ ys := by
        cases h with
        | head => exact absurd rfl hy
        | tail _ h => exact h
      simp only [removeFirst, if_neg hy]
      simp [sumAmounts] at ih ⊢
      rw [ih hx]; ring

/-- Inner loop of `_release_resources` over one resource's entry list, with
Python's iterate-while-removing semantics: the list iterator advances by index
each step, so removing the current entry shifts the remainder left and the
next entry is skipped.  `k` is the iterator's index. -/
def pyReleaseIter (job : String) (k : Nat) (avail : ℚ) (L : List (String × ℚ)) :
    ℚ × List (String × ℚ) :=
  if h : k < L.length then
    let x := L.get ⟨k, h⟩
    if x.1 = job then
      pyReleaseIter job (k + 1) (avail + x.2) (removeFirst x L)
    else
      pyReleaseIter job (k + 1) avail L
  else (avail, L)
termination_by L.length - k
decreasing_by
  · have hx : L.get ⟨k, h⟩ ∈ L := List.get_mem L k h
    have := removeFirst_length_lt (L.get ⟨k, h⟩) L hx
    omega
  · omega

/-- Outer loop of `_release_resources`: iterate over `_acquired_resources`
entries (only their value lists are mutated, so plain structural recursion
matches Python's dict iteration), threading the available map. -/
def releaseGo (job : String) (avail : String → ℚ) :
    List (String × List (String × ℚ)) →
      (String → ℚ) × List (String × List (String × ℚ))
  | [] => (avail, [])
  | (r, lst) :: rest =>
      let q := pyReleaseIter job 0 (avail r) lst
      let res := releaseGo job (updRes avail r q.1) rest
      (res.1, (r, q.2) :: res.2)

/-- `_release_resources`. -/
def releaseResources (job : String) (st : Ledger) : Ledger :=
  let q := releaseGo job st.available st.acquired
  ⟨q.1, q.2⟩

/-- States of the resource ledger reachable from the filled initial state by
any sequence of `_try_acquire_resources` (for a job declared in the graph,
using its declared resource sets) and `_release_resources` calls. -/
inductive ReachLedger (g : List (String × JobConf)) : Ledger → Prop
  | init : ReachLedger g (Ledger.init g)
  | acq (job : String) (conf : JobConf) (st : Ledger) :
      ReachLedger g st → alist.lookup g job = some conf →
      ReachLedger g (tryAcquireResources job (conf.required_resources.getD []) st).2
  | rel (job : String) (st : Ledger) :
      ReachLedger g st → ReachLedger g (releaseResources job st)

theorem acquiredOf_insert (acq : List (String × List (String × ℚ)))
    (r r0 : String) (v : List (String × ℚ)) :
    acquiredOf (alist.insert acq r0 v) r = if r = r0 then v else acquiredOf acq r := by
  unfold acquiredOf
  rw [alist.lookup_insert]
  split <;> simp

theorem lookup_isSome_iff {α : Type} (l : List (String × α)) (k : String) :
    (alist.lookup l k).isSome = true ↔ k ∈ l.map Prod.fst := by
  induction l with
  | nil => simp [alist.lookup]
  | cons hd t ih =>
    obtain ⟨k1, v1⟩ := hd
    by_cases h : k1 = k
    · subst h; simp [alist.lookup]
    · have h2 : ¬ k = k1 := fun hx => h hx.symm
      simp only [alist.lookup, if_neg h, List.map_cons, List.mem_cons]
      rw [ih]
      constructor
      · exact fun hm => Or.inr hm
      · intro hm
        cases hm with
        | inl hx => exact absurd hx h2
        | inr hx => exact hx

theorem insert_keys_nodup {α : Type} (l : List (String × α)) (k : String) (v : α)
    (h : (l.map Prod.fst).Nodup) : ((alist.insert l k v).map Prod.fst).Nodup := by
  rw [alist.keys_insert]
  split
  · exact h
  · rename_i hns
    rw [List.nodup_append]
    refine ⟨h, List.nodup_singleton k, ?_⟩
    intro a ha hb
    simp at hb
    subst hb
    exact hns ((lookup_isSome_iff l a).mpr ha)

theorem sumAmounts_append (l1 l2 : List (String × ℚ)) :
    sumAmounts (l1 ++ l2) = sumAmounts l1 + sumAmounts l2 := by
  simp [sumAmounts]

theorem acquireSet_conserves (job : String) (s : ResourceSet) :
    ∀ (st : Ledger) (r : String),
      (acquireSet job s st).available r
          + sumAmounts (acquiredOf (acquireSet job s st).acquired r)
        = st.available r + sumAmounts (acquiredOf st.acquired r) := by
  induction s with
  | nil => intro st r; simp [acquireSet]
  | cons p rest ih =>
    intro st r
    have hstep : acquireSet job (p :: rest) st
        = acquireSet job rest
            ⟨updRes st.available p.1 (st.available p.1 - p.2),
             alist.insert st.acquired p.1 (acquiredOf st.acquired p.1 ++ [(job, p.2)])⟩ := rfl
    rw [hstep, ih]
    by_cases hr : r = p.1
    · subst hr
      simp [updRes, acquiredOf_insert, sumAmounts_append, sumAmounts]
      try ring
    · simp [updRes, hr, acquiredOf_insert]
      try ring

theorem acquireSet_keys_nodup (job : String) (s : ResourceSet) :
    ∀ (st : Ledger), (st.acquired.map Prod.fst).Nodup →
      ((acquireSet job s st).acquired.map Prod.fst).Nodup := by
  induction s with
  | nil => intro st h; exact h
  | cons p rest ih =>
    intro st h
    exact ih _ (insert_keys_nodup _ _ _ h)

theorem firstFit_conserves (job : String) (sets : List ResourceSet) :
    ∀ (st : Ledger) (r : String),
      (firstFit job sets st).2.available r
          + sumAmounts (acquiredOf (firstFit job sets st).2.acquired r)
        = st.available r + sumAmounts (acquiredOf st.acquired r) := by
  induction sets with
  | nil => intro st r; simp [firstFit]
  | cons s rest ih =>
    intro st r
    by_cases h : setFits st.available s
    · simp [firstFit, h, acquireSet_conserves]
    · simp [firstFit, h, ih]

theorem firstFit_keys_nodup (job : String) (sets : List ResourceSet) :
    ∀ (st : Ledger), (st.acquired.map Prod.fst).Nodup →
      ((firstFit job sets st).2.acquired.map Prod.fst).Nodup := by
  induction sets with
  | nil => intro st h; exact h
  | cons s rest ih =>
    intro st h
    by_cases hf : setFits st.available s
    · simp [firstFit, hf]; exact acquireSet_keys_nodup _ _ _ h
    · simp [firstFit, hf]; exact ih _ h

theorem tryAcquireResources_conserves (job : String) (sets : List ResourceSet)
    (st : Ledger) (r : String) :
    (tryAcquireResources job sets st).2.available r
        + sumAmounts (acquiredOf (tryAcquireResources job sets st).2.acquired r)
      = st.available r + sumAmounts (acquiredOf st.acquired r) := by
  cases sets with
  | nil => simp [tryAcquireResources]
  | cons s rest => exact firstFit_conserves job (s :: rest) st r

theorem tryAcquireResources_keys_nodup (job : String) (sets : List ResourceSet)
    (st : Ledger) (h : (st.acquired.map Prod.fst).Nodup) :
    ((tryAcquireResources job sets st).2.acquired.map Prod.fst).Nodup := by
  cases sets with
  | nil => exact h
  | cons s rest => exact firstFit_keys_nodup job (s :: rest) st h

theorem pyReleaseIter_conserves (job : String) (k : Nat) (avail : ℚ)
    (L : List (String × ℚ)) :
    (pyReleaseIter job k avail L).1 + sumAmounts (pyReleaseIter job k avail L).2
      = avail + sumAmounts L := by
  induction k, avail, L using pyReleaseIter.induct job with
  | case1 k avail L h x hx ih =>
    rw [pyReleaseIter]
    simp only [dif_pos h]
    rw [if_pos hx] at *
    rw [ih]
    have hmem : L.get ⟨k, h⟩ ∈ L := List.get_mem L k h
    rw [removeFirst_sum _ _ hmem]
    ring
  | case2 k avail L h x hx ih =>
    rw [pyReleaseIter]
    simp only [dif_pos h]
    rw [if_neg hx] at *
    exact ih
  | case3 k avail L h =>
    rw [pyReleaseIter]
    simp [dif_neg h]

theorem releaseGo_keys (job : String) (avail : String → ℚ)
    (acq : List (String × List (String × ℚ))) :
    (releaseGo job avail acq).2.map Prod.fst = acq.map Prod.fst := by
  induction acq generalizing avail with
  | nil => simp [releaseGo]
  | cons hd t ih =>
    obtain ⟨r, lst⟩ := hd
    simp [releaseGo, ih]

theorem releaseGo_avail_untouched (job : String) (r : String) :
    ∀ (acq : List (String × List (String × ℚ))) (avail : String → ℚ),
      r ∉ acq.map Prod.fst → (releaseGo job avail acq).1 r = avail r := by
  intro acq
  induction acq with
  | nil => intro avail _; simp [releaseGo]
  | cons hd t ih =>
    obtain ⟨r0, lst⟩ := hd
    intro avail hr
    rw [List.map_cons, List.mem_cons] at hr
    push_neg at hr
    simp only [releaseGo]
    rw [ih _ hr.2, updRes, if_neg hr.1]

theorem releaseGo_conserves (job : String) :
    ∀ (acq : List (String × List (String × ℚ))) (avail : String → ℚ),
      (acq.map Prod.fst).Nodup →
      ∀ (r : String),
        (releaseGo job avail acq).1 r
            + sumAmounts (acquiredOf (releaseGo job avail acq).2 r)
          = avail r + sumAmounts (acquiredOf acq r) := by
  intro acq
  induction acq with
  | nil => intro avail _ r; simp [releaseGo]
  | cons hd t ih =>
    obtain ⟨r0, lst⟩ := hd
    intro avail hnd r
    rw [List.map_cons, List.nodup_cons] at hnd
    have hnd1 : r0 ∉ t.map Prod.fst := hnd.1
    have hnd2 : (t.map Prod.fst).Nodup := hnd.2
    simp only [releaseGo]
    by_cases hr : r = r0
    · subst hr
      have h1 : acquiredOf ((r, (pyReleaseIter job 0 (avail r) lst).2)
          :: (releaseGo job (updRes avail r (pyReleaseIter job 0 (avail r) lst).1) t).2) r
          = (pyReleaseIter job 0 (avail r) lst).2 := by
        simp [acquiredOf, alist.lookup]
      have h2 : acquiredOf ((r, lst) :: t) r = lst := by
        simp [acquiredOf, alist.lookup]
      rw [h1, h2]
      have huntouched := releaseGo_avail_untouched job r t
          (updRes avail r (pyReleaseIter job 0 (avail r) lst).1) hnd1
      rw [huntouched, updRes, if_pos rfl]
      have := pyReleaseIter_conserves job 0 (avail r) lst
      linarith [this]
    · have hne : ¬ r0 = r := fun h => hr h.symm
      have h1 : acquiredOf ((r0, (pyReleaseIter job 0 (avail r0) lst).2)
          :: (releaseGo job (updRes avail r0 (pyReleaseIter job 0 (avail r0) lst).1) t).2) r
          = acquiredOf (releaseGo job (updRes avail r0 (pyReleaseIter job 0 (avail r0) lst).1) t).2 r := by
        simp [acquiredOf, alist.lookup, hne]
      have h2 : acquiredOf ((r0, lst) :: t) r = acquiredOf t r := by
        simp [acquiredOf, alist.lookup, hne]
      rw [h1, h2, ih _ hnd2, updRes, if_neg hr]

/-- The conservation invariant of the resource ledger plus the structural
well-formedness of the acquired map (dicts have no duplicate keys). -/
def LedgerInvariant (g : List (String × JobConf)) (st : Ledger) : Prop :=
  (∀ r : String, st.available r + sumAmounts (acquiredOf st.acquired r)
      = fillAvailable g r)
    ∧ (st.acquired.map Prod.fst).Nodup

theorem reach_invariant (g : List (String × JobConf)) (st : Ledger)
    (h : ReachLedger g st) : LedgerInvariant g st := by
  induction h with
  | init =>
    constructor
    · intro r; simp [Ledger.init, acquiredOf, alist.lookup, sumAmounts]
    · simp [Ledger.init]
  | acq job conf st _ _ ih =>
    constructor
    · intro r
      rw [tryAcquireResources_conserves, ih.1 r]
    · exact tryAcquireResources_keys_nodup _ _ _ ih.2
  | rel job st _ ih =>
    constructor
    · intro r
      unfold releaseResources
      simp only
      rw [releaseGo_conserves job st.acquired st.available ih.2 r, ih.1 r]
    · unfold releaseResources
      simp only
      rw [releaseGo_keys]
      exact ih.2

theorem fillStep_apply (f : String → ℚ) (p : String × ℚ) (r : String) :
    fillStep f p r = if p.1 = r then max (f r) p.2 else f r := by
  unfold fillStep updRes
  by_cases h : p.1 = r
  · subst h
    by_cases h2 : f p.1 < p.2
    · simp [h2, max_eq_right (le_of_lt h2)]
    · simp [h2, max_eq_left (le_of_not_lt h2)]
  · have h4 : ¬ r = p.1 := fun h3 => h h3.symm
    by_cases h2 : f p.1 < p.2 <;> simp [h2, h, h4]

theorem fill_foldl_max (r : String) :
    ∀ (occ : List (String × ℚ)) (f : String → ℚ),
      occ.foldl fillStep f r
        = ((occ.filter (fun p => p.1 = r)).map Prod.snd).foldl max (f r) := by
  intro occ
  induction occ with
  | nil => intro f; simp
  | cons p rest ih =>
    intro f
    by_cases h : p.1 = r
    · simp only [List.foldl_cons, ih, List.filter_cons, h]
      simp [fillStep_apply, h]
    · simp only [List.foldl_cons, ih, List.filter_cons]
      simp [fillStep_apply, h]

theorem fillAvailable_eq_specInitialCapacity (g : List (String × JobConf))
    (r : String) : fillAvailable g r = specInitialCapacity g r := by
  unfold fillAvailable specInitialCapacity amountsOf
  rw [fill_foldl_max]

/-- Code-point-lexicographic strict order on character lists: the order
Python's `sorted` uses on strings, written so that it evaluates by kernel
reduction. -/
def charListLt : List Char → List Char → Bool
  | _, [] => false
  | [], _ :: _ => true
  | c1 :: t1, c2 :: t2 =>
      if c1.toNat < c2.toNat then true
      else if c2.toNat < c1.toNat then false
      else charListLt t1 t2

/-- `a <= b` on strings as Python compares them. -/
def strLe (a b : String) : Bool :=
  !charListLt b.data a.data

/-- Character-list test that `l` starts with `pat`. -/
def charsStartsWith : List Char → List Char → Bool
  | _, [] => true
  | [], _ :: _ => false
  | a :: as, b :: bs => a = b && charsStartsWith as bs

/-- Python `str.replace(pat, rep)` (all non-overlapping occurrences, left to
right; the fuel argument is the list length, making the recursion
structural; an empty pattern does not occur in the source). -/
def charsReplaceGo (pat rep : List Char) : Nat → List Char → List Char
  | _, [] => []
  | 0, l => l
  | fuel + 1, c :: rest =>
      if charsStartsWith (c :: rest) pat && !pat.isEmpty then
        rep ++ charsReplaceGo pat rep fuel (rest.drop (pat.length - 1))
      else c :: charsReplaceGo pat rep fuel rest

/-- Python `s.replace(pat, rep)`. -/
def strReplace (s pat rep : String) : String :=
  ⟨charsReplaceGo pat.data rep.data s.data.length s.data⟩

/-- Insertion step of Python's `sorted` on string keys (keys are unique, so
any stable comparison-sort model agrees). -/
def insertSortedStr (x : String) : List String → List String
  | [] => [x]
  | y :: ys => if strLe x y then x :: y :: ys else y :: insertSortedStr x ys

/-- Python `sorted(keys)`: ascending lexicographic order. -/
def sortKeys (l : List String) : List String :=
  l.foldr insertSortedStr []

/-- `_must_wait_time`: the pending job's `wait_time` is set and
`wait_time - time() + start_time > 0`.  `elapsed` stands for
`time() - start_time`. -/
def mustWaitTime (elapsed : ℚ) (conf : PendingConf) : Bool :=
  match conf.wait_time with
  | none => false
  | some wt => decide (0 < wt - elapsed)

/-- `len(self.__running_jobs) >= max_running_jobs` with
`max_running_jobs = self.args.max_running_jobs or float('inf')` (so an absent
argument, and also an explicit `0`, mean no cap: Python `or` on a falsy int). -/
def maxReached (maxR : Option Nat) (n : Nat) : Bool :=
  match maxR with
  | none => false
  | some m => if m = 0 then false else decide (m ≤ n)

/-- Loop body of the normal admission pass (Pass A) of `run_pending_jobs` for
one pending key: start the job iff its `wait_for` set is empty, its wait
timer has elapsed, and resource acquisition succeeds.  The scheduled id (which
may be `none`, see `run_job`) is recorded in `__running_jobs` unconditionally
when the job was admitted. -/
def passAStep (sched : String → Nat → Option String) (elapsed : ℚ) (job : String)
    (st : GMState) : Except String GMState :=
  match alist.lookup st.pending job with
  | none => .error ("KeyError: " ++ job)
  | some conf =>
      if conf.wait_for.isEmpty && !mustWaitTime elapsed conf then
        match alist.lookup st.jobsGraph job with
        | none => .error ("Invalid job: " ++ job)
        | some gconf =>
            let q := tryAcquireResources job (gconf.required_resources.getD [])
                       st.ledger
            let st1 := {st with ledger := q.2}
            if q.1 then
              .ok {st1 with pending := alist.erase st1.pending job,
                            running := alist.insert st1.running job
                              (sched job conf.retries)}
            else .ok st1
      else .ok st

/-- Pass A: iterate the sorted pending keys, breaking when the running cap is
reached. -/
def passAGo (sched : String → Nat → Option String) (elapsed : ℚ)
    (maxR : Option Nat) : List String → GMState → Except String GMState
  | [], st => .ok st
  | job :: rest, st =>
      if maxReached maxR st.running.length then .ok st
      else do
        let st1 ← passAStep sched elapsed job st
        passAGo sched elapsed maxR rest st1

/-- The early-return condition guarding the stalemate-escape pass:
`if not self.__pending_jobs or self.__running_jobs or
any(conf['wait_time'] is not None for conf in self.__pending_jobs.values())`.
Note the source tests `wait_time is not None`, not whether the timer has
elapsed. -/
def shouldSkipPassB (st : GMState) : Bool :=
  st.pending.isEmpty || !st.running.isEmpty
    || st.pending.any (fun p => p.2.wait_time.isSome)

/-- Pass B ("skip unknown deps" mode) of `run_pending_jobs`, iterating the
sorted pending keys while threading `origin_job`.  Faithful details: a job can
run when every `wait_for` member is absent from pending, the origin gate
passes, and acquisition succeeds; `origin_job` is reassigned from the current
job's `origin` on *every* iteration (started or not); after each iteration,
if `origin_job` is falsy and something is running, the loop returns. -/
def passBGo (sched : String → Nat → Option String) (maxR : Option Nat) :
    List String → Option String → GMState → Except String GMState
  | [], _, st => .ok st
  | job :: rest, origin_job, st =>
      if maxReached maxR st.running.length then .ok st
      else
        match alist.lookup st.pending job with
        | none => .error ("KeyError: " ++ job)
        | some conf =>
            if conf.wait_for.all (fun w => (alist.lookup st.pending w).isNone)
                && (origin_job.isNone || decide (conf.origin = origin_job)) then
              match alist.lookup st.jobsGraph job with
              | none => .error ("Invalid job: " ++ job)
              | some gconf =>
                  let q := tryAcquireResources job
                             (gconf.required_resources.getD []) st.ledger
                  let st1 := {st with ledger := q.2}
                  let st2 := if q.1 then
                      {st1 with pending := alist.erase st1.pending job,
                                running := alist.insert st1.running job
                                  (sched job conf.retries)}
                    else st1
                  if conf.origin.isNone && !st2.running.isEmpty then .ok st2
                  else passBGo sched maxR rest conf.origin st2
            else
              if conf.origin.isNone && !st.running.isEmpty then .ok st
              else passBGo sched maxR rest conf.origin st

/-- `run_pending_jobs`: Pass A over the sorted pending keys; early return
unless pending is non-empty, nothing is running and no pending job has a
`wait_time` key; then Pass B; then the dependency-cycle error if still
nothing is running (the diagnostic enumeration of stuck jobs is elided from
the message). -/
def runPendingJobs (sched : String → Nat → Option String) (elapsed : ℚ)
    (maxR : Option Nat) (st : GMState) : Except String GMState := do
  let stA ← passAGo sched elapsed maxR (sortKeys (st.pending.map Prod.fst)) st
  if shouldSkipPassB stA then .ok stA
  else do
    let stB ← passBGo sched maxR (sortKeys (stA.pending.map Prod.fst)) none stA
    if !stB.running.isEmpty then .ok stB
    else .error "Job dependency cycle detected"

/-- `"%s_%i" % (job, i)`: the name of fan-out unit `i`. -/
def unitName (job : String) (i : Nat) : String :=
  job ++ "_" ++ toString i

/-- `Fraction(res_amount, self.parallelization)` applied to every amount of
one resource set (the unit-splitting of `_add_pending_job`). -/
def scaleResourceSet (N : Nat) (s : ResourceSet) : ResourceSet :=
  s.map (fun p => (p.1, p.2 / (N : ℚ)))

/-- The scaled `required_resources` list of one fan-out unit. -/
def scaleRequired (N : Nat) (sets : List ResourceSet) : List ResourceSet :=
  sets.map (scaleResourceSet N)

/-- Inner `for i in range(self.parallelization)` of the fan-out `else`
branch (successor absent from the graph).  Faithful to two slips in the
source: the unit names are built from `job` (the task being expanded), not
from the successor, and `get_job(...).get('wait_for', []).append(...)`
mutates a fresh list (a no-op) when the conf has no `wait_for` key.  A
missing `nextjobp` aborts via `get_job` → `argparser.error`. -/
def addWaitToOwnUnits (N : Nat) (job job_unit : String)
    (gp : (List (String × JobConf)) × (List (String × PendingConf))) :
    Except String ((List (String × JobConf)) × (List (String × PendingConf))) :=
  (List.range N).foldlM (fun gp i =>
    let nextjobp := unitName job i
    match alist.lookup gp.1 nextjobp with
    | none => .error ("Invalid job: " ++ nextjobp)
    | some c =>
        let g1 := match c.wait_for with
          | none => gp.1
          | some l => alist.insert gp.1 nextjobp {c with wait_for := some (l ++ [job_unit])}
        let p1 := match alist.lookup gp.2 nextjobp with
          | none => gp.2
          | some pc => alist.insert gp.2 nextjobp
              {pc with wait_for := setAdd pc.wait_for job_unit}
        .ok (g1, p1)) gp

/-- Effect of one real (non-`"retry"`) successor removed from a unit `i > 0`:
if the successor is still a graph node, append the unit to its `wait_for`
(creating the key) and to its pending record; otherwise run the buggy inner
loop over `job`'s own units. -/
def fanoutSuccessorEffect (N : Nat) (job job_unit nextjob : String)
    (gp : (List (String × JobConf)) × (List (String × PendingConf))) :
    Except String ((List (String × JobConf)) × (List (String × PendingConf))) :=
  match alist.lookup gp.1 nextjob with
  | some c =>
      let g1 := alist.insert gp.1 nextjob
        {c with wait_for := some (c.wait_for.getD [] ++ [job_unit])}
      let p1 := match alist.lookup gp.2 nextjob with
        | none => gp.2
        | some pc => alist.insert gp.2 nextjob
            {pc with wait_for := setAdd pc.wait_for job_unit}
      .ok (g1, p1)
  | none => addWaitToOwnUnits N job job_unit gp

/-- One `on_finish` successor list of a unit `i > 0`: iterate over a copy,
apply the successor effect to each non-`"retry"` entry and remove it from the
live list (so only `"retry"` entries survive, in order). -/
def processFanoutNextJobs (N : Nat) (job job_unit : String) :
    List String → (List (String × JobConf)) × (List (String × PendingConf)) →
      Except String ((List (String × JobConf)) × (List (String × PendingConf)) × List String)
  | [], gp => .ok (gp.1, gp.2, [])
  | nj :: rest, gp =>
      if nj = "retry" then do
        let r ← processFanoutNextJobs N job job_unit rest gp
        .ok (r.1, r.2.1, nj :: r.2.2)
      else do
        let gp1 ← fanoutSuccessorEffect N job job_unit nj gp
        processFanoutNextJobs N job job_unit rest gp1

/-- The `on_finish` loop of one unit `i > 0`, over all outcome keys. -/
def processFanoutOnFinish (N : Nat) (job job_unit : String) :
    List (String × List String) →
      (List (String × JobConf)) × (List (String × PendingConf)) →
      Except String ((List (String × JobConf)) × (List (String × PendingConf))
        × List (String × List String))
  | [], gp => .ok (gp.1, gp.2, [])
  | (k, njs) :: rest, gp => do
      let q ← processFanoutNextJobs N job job_unit njs gp
      let r ← processFanoutOnFinish N job job_unit rest (q.1, q.2.1)
      .ok (r.1, r.2.1, (k, q.2.2) :: r.2.2)

/-- Building fan-out unit `i` of `job` in `_add_pending_job`: deep-copy the
base conf, scale the resources, append the substituted parallel arg to
`init_args` (and `retry_args` when present), process `on_finish` for units
`i ≠ 0`, then insert the unit into the graph and into pending with
`origin = job`. -/
def buildUnit (N : Nat) (job pa : String) (basejobconf : JobConf)
    (wait_for : List String) (retries : Nat) (wait_time : Option ℚ)
    (gp : (List (String × JobConf)) × (List (String × PendingConf))) (i : Nat) :
    Except String ((List (String × JobConf)) × (List (String × PendingConf))) := do
  let parg := strReplace pa "%d" (toString i)
  let job_unit := unitName job i
  let conf0 := {basejobconf with
    required_resources := some (scaleRequired N (basejobconf.required_resources.getD []))}
  let conf1 := {conf0 with
    init_args := some (conf0.init_args.getD [] ++ [parg]),
    retry_args := conf0.retry_args.map (fun l => l ++ [parg])}
  let q ← (if i ≠ 0 then
      match conf1.on_finish with
      | none => .ok (gp.1, gp.2, conf1)
      | some onf => do
          let r ← processFanoutOnFinish N job job_unit onf gp
          .ok (r.1, r.2.1, {conf1 with on_finish := some r.2.2})
    else .ok (gp.1, gp.2, conf1))
  let g1 := alist.insert q.1 job_unit q.2.2
  let p1 := alist.insert q.2.1 job_unit
    ⟨setOfList wait_for, retries, q.2.2.required_resources.getD [], some job, wait_time⟩
  .ok (g1, p1)

/-- One graph entry of the final rewiring loop of `_add_pending_job`: if the
expanded task appears in the entry's `wait_for` list, remove its first
occurrence and append all `N` unit names; mirror the change on the entry's
pending record when it is pending. -/
def rewireEntry (N : Nat) (job other : String) (oc : JobConf)
    (p : List (String × PendingConf)) : JobConf × List (String × PendingConf) :=
  match oc.wait_for with
  | none => (oc, p)
  | some l =>
      if job ∈ l then
        let l1 := l.erase job ++ (List.range N).map (unitName job)
        let p1 := match alist.lookup p other with
          | none => p
          | some pc =>
              let w1 := (List.range N).foldl (fun acc i => setAdd acc (unitName job i))
                (setDiscard pc.wait_for job)
              alist.insert p other {pc with wait_for := w1}
        ({oc with wait_for := some l1}, p1)
      else (oc, p)

/-- The final rewiring loop over all graph entries (only values are mutated,
so structural recursion matches dict iteration). -/
def rewireWaitFor (N : Nat) (job : String) :
    List (String × JobConf) → List (String × PendingConf) →
      List (String × JobConf) × List (String × PendingConf)
  | [], p => ([], p)
  | (other, oc) :: rest, p =>
      let q := rewireEntry N job other oc p
      let r := rewireWaitFor N job rest q.2
      ((other, q.1) :: r.1, r.2)

/-- `_add_pending_job(job, wait_for, retries)`.  The `parallel_arg` pop
mutates the conf held in the graph; with a parallel arg present the task is
deleted from the graph and expanded into `N = parallelization` units,
otherwise a plain pending record is stored. -/
def addPendingJob (N : Nat) (job : String) (wait_for : List String)
    (retries : Nat) (st : GMState) : Except String GMState :=
  match alist.lookup st.jobsGraph job with
  | none => .error ("Invalid job: " ++ job)
  | some basejobconf0 =>
      let wait_time := basejobconf0.wait_time
      let required_resources_sets := basejobconf0.required_resources.getD []
      let parallel_arg := basejobconf0.parallel_arg
      let basejobconf := {basejobconf0 with parallel_arg := none}
      let g0 := alist.insert st.jobsGraph job basejobconf
      match parallel_arg with
      | some pa => do
          let g1 := alist.erase g0 job
          let q ← (List.range N).foldlM
            (buildUnit N job pa basejobconf wait_for retries wait_time)
            (g1, st.pending)
          let r := rewireWaitFor N job q.1 q.2
          .ok {st with jobsGraph := r.1, pending := r.2}
      | none =>
          let p1 := alist.insert st.pending job
            ⟨setOfList wait_for, retries, required_resources_sets, none, wait_time⟩
          .ok {st with jobsGraph := g0, pending := p1}

/-- `_get_next_jobs(job, outcome)`: exact outcome key first, else the
`"failed"` entry for failed outcomes, else the `"default"` entry; everything
empty under `--only-starting-jobs`. -/
def getNextJobs (P : Params) (job outcome : String) (st : GMState) :
    Except String (List String) :=
  if P.onlyStartingJobs then .ok []
  else
    match alist.lookup st.jobsGraph job with
    | none => .error ("Invalid job: " ++ job)
    | some gconf =>
        let onf := gconf.on_finish.getD []
        match alist.lookup onf outcome with
        | some l => .ok l
        | none =>
            if outcome ∈ P.failedOutcomes then .ok ((alist.lookup onf "failed").getD [])
            else .ok ((alist.lookup onf "default").getD [])

/-- The successor loop of `check_running_jobs`: the `"retry"` sentinel
re-adds the same task with `retries=1` and decrements the declared budget
(the decrement mutates the conf object fetched before `_add_pending_job`,
which still sits in the graph in the non-parallel case — hence the re-lookup;
after a parallel expansion the object is no longer in the graph and the
decrement is invisible); an already-pending successor is skipped; a fresh
successor is added with its declared `wait_for`. -/
def processNextJobs (P : Params) (job : String) :
    List String → GMState → Except String GMState
  | [], st => .ok st
  | nextjob :: rest, st =>
      if nextjob = "retry" then
        match alist.lookup st.jobsGraph job with
        | none => .error ("Invalid job: " ++ job)
        | some jobconf =>
            if 0 < jobconf.retries.getD 0 then do
              let st1 ← addPendingJob P.parallelization job [] 1 st
              let st2 := match alist.lookup st1.jobsGraph job with
                | some c =>
                    let g2 := alist.insert st1.jobsGraph job
                      {c with retries := some (c.retries.getD 0 - 1)}
                    {st1 with jobsGraph := g2}
                | none => st1
              processNextJobs P job rest st2
            else processNextJobs P job rest st
      else
        if (alist.lookup st.pending nextjob).isSome then
          processNextJobs P job rest st
        else
          match alist.lookup st.jobsGraph nextjob with
          | none => .error ("Invalid job: " ++ nextjob)
          | some njconf => do
              let st1 ← addPendingJob P.parallelization nextjob
                (njconf.wait_for.getD []) 0 st
              processNextJobs P job rest st1

/-- `conf['wait_for'].discard(job)` on one pending record. -/
def pendingDiscardWait (job : String) (c : PendingConf) : PendingConf :=
  {c with wait_for := setDiscard c.wait_for job}

/-- `if job in conf.get('wait_for', []): conf['wait_for'].remove(job)` on one
graph conf (`List.erase` is exactly remove-first-if-present). -/
def graphEraseWait (job : String) (c : JobConf) : JobConf :=
  {c with wait_for := c.wait_for.map (fun l => l.erase job)}

/-- Handling of one finished running job `(job, outcome)` inside
`check_running_jobs`: discard the key from every pending `wait_for` set and
from every graph conf's `wait_for` list, route the successors, release the
job's resources and drop it from running. -/
def handleFinished (P : Params) (job outcome : String) (st : GMState) :
    Except String GMState := do
  let pending1 := st.pending.map (fun q => (q.1, pendingDiscardWait job q.2))
  let graph1 := st.jobsGraph.map (fun q => (q.1, graphEraseWait job q.2))
  let st1 : GMState := {st with pending := pending1, jobsGraph := graph1}
  let nexts ← getNextJobs P job outcome st1
  let st2 ← processNextJobs P job nexts st1
  .ok {st2 with ledger := releaseResources job st2.ledger,
                running := alist.erase st2.running job}

/-- `check_running_jobs`: iterate over a snapshot (`list(...)`) of the
running map, handling every job whose backend outcome is available. -/
def checkRunningGo (P : Params) :
    List (String × Option String) → GMState → Except String GMState
  | [], st => .ok st
  | (job, jobid) :: rest, st =>
      match P.isFinished jobid with
      | some outcome => do
          let st1 ← handleFinished P job outcome st
          checkRunningGo P rest st1
      | none => checkRunningGo P rest st

/-- `check_running_jobs` entry point. -/
def checkRunningJobs (P : Params) (st : GMState) : Except String GMState :=
  checkRunningGo P st.running st

/-- `workflow_loop`: one scheduler tick.  Returns `false` (stop) only when
both pending and running are empty after completion handling. -/
def workflowLoop (P : Params) (st : GMState) : Except String (Bool × GMState) := do
  let st1 ← checkRunningJobs P st
  if !st1.pending.isEmpty then do
    let st2 ← runPendingJobs P.sched P.elapsed P.maxRunningJobs st1
    .ok (true, st2)
  else if st1.running.isEmpty then .ok (false, st1)
  else .ok (true, st1)

/-- `re.match("--starting-job(?:=(.+))?", option)`: `none` when the option
does not start with `--starting-job`; otherwise `some g` where `g` is the
captured group — present exactly when the flag is immediately followed by
`=` and at least one more character (`.+` then greedily captures the rest;
command-line tokens contain no newline). -/
def startingJobMatch (s : String) : Option (Option String) :=
  if charsStartsWith s.data "--starting-job".data then
    let rest := s.data.drop "--starting-job".data.length
    match rest with
    | '=' :: c :: cs => some (some ⟨c :: cs⟩)
    | _ => some none
  else none

/-- Loop body of `_get_starting_jobs_from_resumed_job` over one recorded
command-line token, threading `(starting_jobs, next_option_is_task)`.
Faithful to the source: after a match `m`, the code tests `if m:` (always
true here) instead of `if task:`, so the captured group — possibly `None` —
is appended and the `next_option_is_task = True` branch is unreachable. -/
def startingJobsStep (acc : List (Option String) × Bool) (option : String) :
    List (Option String) × Bool :=
  if acc.2 then (acc.1 ++ [some option], acc.2)
  else
    match startingJobMatch option with
    | some g => (acc.1 ++ [g], acc.2)
    | none => acc

/-- `_get_starting_jobs_from_resumed_job`, given the job's recorded
`job_cmd` token list.  Entries are `Option String` because the source can
append the unmatched group `None`. -/
def getStartingJobsFromResumedJob (job_cmd : List String) : List (Option String) :=
  (job_cmd.foldl startingJobsStep ([], false)).1

/-! ## Helper lemmas on the embedded operations -/

theorem lookup_erase {α : Type} (l : List (String × α)) (k : String) :
    alist.lookup (alist.erase l k) k = none := by
  unfold alist.erase
  induction l with
  | nil => rfl
  | cons hd t ih =>
    obtain ⟨k1, v1⟩ := hd
    rw [List.filter_cons]
    simp only [ne_eq, decide_not] at ih ⊢
    by_cases h : k1 = k
    · simp [h, ih]
    · simp [alist.lookup, h, ih]

theorem tryAcquire_false_unchanged (job : String) (sets : List ResourceSet)
    (st : Ledger) (h : (tryAcquireResources job sets st).1 = false) :
    tryAcquireResources job sets st = (false, st) := by
  cases sets with
  | nil => simp [tryAcquireResources] at h
  | cons s rest =>
    have hgen : ∀ (l : List ResourceSet), (firstFit job l st).1 = false →
        firstFit job l st = (false, st) := by
      intro l
      induction l with
      | nil => intro _; rfl
      | cons t ts ih =>
        intro hl
        by_cases hf : setFits st.available t
        · simp [firstFit, hf] at hl
        · simp only [firstFit, Bool.if_false_right] at hl ⊢
          rw [if_neg (by simp [hf])] at hl ⊢
          exact ih hl
    exact hgen (s :: rest) h

theorem firstFit_found (job : String) :
    ∀ (pre : List ResourceSet) (s : ResourceSet) (post : List ResourceSet)
      (st : Ledger),
      (∀ t ∈ pre, setFits st.available t = false) →
      setFits st.available s = true →
      firstFit job (pre ++ s :: post) st = (true, acquireSet job s st) := by
  intro pre
  induction pre with
  | nil =>
    intro s post st _ hs
    simp [firstFit, hs]
  | cons t ts ih =>
    intro s post st hpre hs
    have ht : setFits st.available t = false := hpre t (by simp)
    simp only [List.cons_append, firstFit, ht, Bool.false_eq_true, if_false]
    exact ih s post st (fun u hu => hpre u (by simp [hu])) hs

theorem firstFit_all_fail (job : String) :
    ∀ (sets : List ResourceSet) (st : Ledger),
      (∀ s ∈ sets, setFits st.available s = false) →
      firstFit job sets st = (false, st) := by
  intro sets
  induction sets with
  | nil => intro st _; rfl
  | cons s rest ih =>
    intro st hall
    have hs : setFits st.available s = false := hall s (by simp)
    simp only [firstFit, hs, Bool.false_eq_true, if_false]
    exact ih st (fun u hu => hall u (by simp [hu]))

/-! ## Fixtures: concrete states exercising the claims -/

/-- An empty resource ledger (nothing filled, nothing acquired). -/
def emptyLedger : Ledger := ⟨fun _ => 0, []⟩

/-- A backend whose `schedule_script` always fails to return a job id. -/
def schedNull : String → Nat → Option String := fun _ _ => none

/-- A backend that always schedules successfully. -/
def schedOk : String → Nat → Option String := fun _ _ => some "jid"

/-- One declared task `a` with no dependencies and no resources, pending. -/
def exC1State : GMState :=
  ⟨[("a", {})], [("a", ⟨[], 0, [], none, none⟩)], [], emptyLedger⟩

/-- Task `a` pending with an *elapsed* wait timer (`wait_time = 0`, evaluated
at `elapsed = 5`) and a stale dependency `z` that is not pending. -/
def exC4State : GMState :=
  ⟨[("a", {})], [("a", ⟨["z"], 0, [], none, some 0⟩)], [], emptyLedger⟩

/-- Two pending jobs: fan-out unit `a_1` (origin `a`) waiting on pending `b`,
and `b` waiting only on the unknown task `z`.  Sorted order visits `a_1`
first. -/
def exC5State : GMState :=
  ⟨[("a_1", {}), ("b", {})],
   [("a_1", ⟨["b"], 0, [], some "a", none⟩), ("b", ⟨["z"], 0, [], none, none⟩)],
   [], emptyLedger⟩

/-- A fan-out task `p` (parallelization 2) whose successor `q` has already
been expanded: only `q_0` and `q_1` remain in the graph. -/
def exC7Conf : JobConf :=
  {on_finish := some [("finished", ["q"])], parallel_arg := some "--shard=%d"}

/-- Graph/state for the C7 scenario. -/
def exC7State : GMState :=
  ⟨[("p", exC7Conf), ("q_0", {}), ("q_1", {})], [], [], emptyLedger⟩

/-- Task `A` with a retry budget of 2 whose every outcome is `failed` and
routes to the `"retry"` sentinel. -/
def exC6Conf : JobConf := {retries := some 2, on_finish := some [("failed", ["retry"])]}

/-- Collaborators for the C6 scenario: the backend reports every job as
finished with outcome `failed`; scheduling returns an id recording the retry
flag. -/
def exC6Params : Params :=
  ⟨fun _ => some "failed", fun j r => some (j ++ "/" ++ toString r),
   ["failed"], false, 1, none, 0⟩

/-- C6 initial state: `A` pending, nothing running. -/
def exC6State0 : GMState :=
  ⟨[("A", exC6Conf)], [("A", ⟨[], 0, [], none, none⟩)], [], emptyLedger⟩

/-- C6 state after tick 1: first submission of `A`. -/
def exC6State1 : GMState :=
  ⟨[("A", exC6Conf)], [], [("A", some "A/0")], emptyLedger⟩

/-- C6 state after tick 2: first failure consumed one unit of budget and `A`
was resubmitted as a retry. -/
def exC6State2 : GMState :=
  ⟨[("A", {exC6Conf with retries := some 1})], [], [("A", some "A/1")], emptyLedger⟩

/-- C6 state after tick 3: second failure, budget exhausted, third
submission. -/
def exC6State3 : GMState :=
  ⟨[("A", {exC6Conf with retries := some 0})], [], [("A", some "A/1")], emptyLedger⟩

/-- C6 final state: third failure with empty budget drops `A`; the loop
signals completion. -/
def exC6State4 : GMState :=
  ⟨[("A", {exC6Conf with retries := some 0})], [], [], emptyLedger⟩

/-- A ledger with 5 units of everything available. -/
def exC3Ledger : Ledger := ⟨fun _ => 5, []⟩

/-- Two resource sets for the C3 witness; the first one fits. -/
def exC3Sets : List ResourceSet := [[("cpu", 2)], [("cpu", 1)]]

/-- Single task whose one resource set asks for 3 cpu. -/
def exC2Graph : List (String × JobConf) :=
  [("t", {required_resources := some [[("cpu", 3)]]})]

/-- Ledger reached from the filled initial state by one acquisition for `t`. -/
def exC2Ledger : Ledger :=
  (tryAcquireResources "t" [[("cpu", 3)]] (Ledger.init exC2Graph)).2

/-- Declared task for the C10 witness: it has a declared dependency and a
positive retry budget. -/
def exC10Conf : JobConf := {wait_for := some ["dep"], retries := some 2}

/-- State for the C10 witness. -/
def exC10State : GMState := ⟨[("a", exC10Conf)], [], [], emptyLedger⟩

/-- The claim's Pass-B entry condition, following the spec's words: pending
non-empty, running empty, and no pending job gated on a live `wait_time`
(one that has not yet elapsed). -/
def specPassBEntryCondition (elapsed : ℚ) (st : GMState) : Prop :=
  st.pending ≠ [] ∧ st.running = []
    ∧ ∀ p ∈ st.pending, mustWaitTime elapsed p.2 = false

/-! ## Claim theorems -/

/-- C1 counterexample: with task `a` eligible and the backend returning no
job id, `run_pending_jobs` still removes `a` from pending and records it as
running under the null id — the claim's "remains in the pending map" is
false at this input. -/
theorem c1_counterexample :
    (runPendingJobs schedNull 0 none exC1State).map (fun s => (s.pending, s.running))
      = .ok ([], [("a", (none : Option String))]) := rfl

/-- C1 (amended): when an admitted pending job's scheduling call returns no
job id, the Pass-A step nonetheless removes the job from the pending map and
records it in the running map under the null id. -/
theorem c1_null_schedule (sched : String → Nat → Option String) (elapsed : ℚ)
    (job : String) (st : GMState) (conf : PendingConf) (gconf : JobConf)
    (hp : alist.lookup st.pending job = some conf)
    (hw : conf.wait_for.isEmpty = true)
    (ht : mustWaitTime elapsed conf = false)
    (hg : alist.lookup st.jobsGraph job = some gconf)
    (ha : (tryAcquireResources job (gconf.required_resources.getD []) st.ledger).1 = true)
    (hs : sched job conf.retries = none) :
    passAStep sched elapsed job st = .ok
      {st with ledger := (tryAcquireResources job (gconf.required_resources.getD []) st.ledger).2,
               pending := alist.erase st.pending job,
               running := alist.insert st.running job none} := by
  unfold passAStep
  rw [hp, hg]
  simp only [hw, ht, Bool.not_false, Bool.and_self, if_true, ha, hs]

/-- C1 witness: the amended theorem applied to the concrete C1 state. -/
theorem c1_witness :
    passAStep schedNull 0 "a" exC1State
      = .ok ⟨[("a", {})], [], [("a", none)], emptyLedger⟩ :=
  c1_null_schedule schedNull 0 "a" exC1State ⟨[], 0, [], none, none⟩ {}
    rfl rfl rfl rfl rfl rfl

/-- C3 counterexample: with an *empty* list of resource sets no set fits
(vacuously), yet `_try_acquire_resources` returns `True` — contradicting the
claim's "if no set fits it returns false". -/
theorem c3_counterexample :
    (∀ s ∈ ([] : List ResourceSet), setFits exC3Ledger.available s = false)
      ∧ tryAcquireResources "a" [] exC3Ledger = (true, exC3Ledger) :=
  ⟨by simp, rfl⟩

/-- C4 counterexample: in `exC4State` at `elapsed = 5` the claim's entry
condition holds (the only wait timer has elapsed, pending is non-empty,
running is empty), yet the source's gate skips Pass B and
`run_pending_jobs` returns with `a` still pending. -/
theorem c4_counterexample :
    specPassBEntryCondition 5 exC4State
      ∧ shouldSkipPassB exC4State = true
      ∧ runPendingJobs schedOk 5 none exC4State = .ok exC4State := by
  refine ⟨⟨by simp [exC4State], rfl, ?_⟩, rfl, rfl⟩
  intro p hp
  have hpeq : p = ("a", ⟨["z"], 0, [], none, some 0⟩) := by
    simpa [exC4State] using hp
  subst hpeq
  simp only [mustWaitTime, decide_eq_false_iff_not, not_lt]
  norm_num

/-- C4 (amended): Pass B is entered exactly when, after Pass A, pending is
non-empty, running is empty, and no pending job has a `wait_time` key at all
(`is not None`) — whether or not the timer has elapsed. -/
theorem c4_passB_gate (st : GMState) :
    shouldSkipPassB st = false ↔
      st.pending ≠ [] ∧ st.running = []
        ∧ ∀ p ∈ st.pending, p.2.wait_time = none := by
  unfold shouldSkipPassB
  rw [Bool.or_eq_false_iff, Bool.or_eq_false_iff, List.any_eq_false]
  constructor
  · rintro ⟨⟨h1, h2⟩, h3⟩
    refine ⟨?_, ?_, ?_⟩
    · intro hnil; rw [hnil] at h1; cases h1
    · have h4 : st.running.isEmpty = true := by
        cases hb : st.running.isEmpty
        · rw [hb] at h2; cases h2
        · rfl
      exact List.isEmpty_iff.mp h4
    · intro p hp
      have hx := h3 p hp
      cases hwt : p.2.wait_time with
      | none => rfl
      | some wt => simp [hwt] at hx
  · rintro ⟨h1, h2, h3⟩
    refine ⟨⟨?_, ?_⟩, ?_⟩
    · cases hst : st.pending with
      | nil => exact absurd hst h1
      | cons a t => rfl
    · rw [h2]; rfl
    · intro p hp
      rw [h3 p hp]
      simp

/-- C5: the code-bug input.  `b`'s only blocker `z` is unknown (not
pending), no job has been started, so by the claim (and the function's own
docstring) Pass B may admit `b`; but because the non-started job `a_1`
reassigned the required origin, `b` is rejected and the tick instead raises
the dependency-cycle error. -/
theorem c5_code_bug :
    alist.lookup exC5State.pending "b" = some ⟨["z"], 0, [], none, none⟩
      ∧ alist.lookup exC5State.pending "z" = none
      ∧ runPendingJobs schedOk 0 none exC5State
          = .error "Job dependency cycle detected" :=
  ⟨rfl, rfl, rfl⟩

/-- C7: the code-bug input.  Successor `q` of the expanding task `p` is
itself fan-out-expanded (`q` absent, `q_0`/`q_1` present); instead of adding
`p_1` to the `wait_for` of `q_0` and `q_1`, the expansion aborts looking up
`p`'s own unit `p_1` (not yet inserted), because the inner loop builds names
from `job` rather than from the successor. -/
theorem c7_code_bug :
    alist.lookup exC7State.jobsGraph "q" = none
      ∧ (alist.lookup exC7State.jobsGraph "q_0").isSome = true
      ∧ (alist.lookup exC7State.jobsGraph "q_1").isSome = true
      ∧ addPendingJob 2 "p" [] 0 exC7State = .error "Invalid job: p_1" :=
  ⟨rfl, rfl, rfl, rfl⟩

/-- C9: the code-bug input.  The recorded command line uses the two-token
form `--starting-job A`; because the source re-tests the match object
(`if m:`) instead of the captured group, it appends `None` and never consumes
`A` — while the `--starting-job=A` form works. -/
theorem c9_code_bug :
    getStartingJobsFromResumedJob ["managercmd", "--starting-job", "A"] = [none]
      ∧ getStartingJobsFromResumedJob ["managercmd", "--starting-job=A"] = [some "A"] :=
  ⟨rfl, rfl⟩

/-- Pass-A admission of an eligible job, as one reusable equation. -/
theorem passAStep_admits (sched : String → Nat → Option String) (elapsed : ℚ)
    (job : String) (st : GMState) (conf : PendingConf) (gconf : JobConf)
    (hp : alist.lookup st.pending job = some conf)
    (hw : conf.wait_for.isEmpty = true)
    (ht : mustWaitTime elapsed conf = false)
    (hg : alist.lookup st.jobsGraph job = some gconf)
    (ha : (tryAcquireResources job (gconf.required_resources.getD []) st.ledger).1 = true) :
    passAStep sched elapsed job st = .ok
      {st with ledger := (tryAcquireResources job (gconf.required_resources.getD []) st.ledger).2,
               pending := alist.erase st.pending job,
               running := alist.insert st.running job (sched job conf.retries)} := by
  unfold passAStep
  rw [hp, hg]
  simp only [hw, ht, Bool.not_false, Bool.and_self, if_true, ha]

/-- The non-parallel branch of `_add_pending_job` as one equation. -/
theorem addPendingJob_nonparallel (N : Nat) (job : String) (wait_for : List String)
    (retries : Nat) (st : GMState) (gconf : JobConf)
    (hg : alist.lookup st.jobsGraph job = some gconf)
    (hpar : gconf.parallel_arg = none) :
    addPendingJob N job wait_for retries st = .ok
      {st with jobsGraph := alist.insert st.jobsGraph job {gconf with parallel_arg := none},
               pending := alist.insert st.pending job
                 ⟨setOfList wait_for, retries, gconf.required_resources.getD [],
                  none, gconf.wait_time⟩} := by
  unfold addPendingJob
  simp only [hg, hpar]

/-- The `"retry"` successor handling of `check_running_jobs` as one
equation: re-add with empty `wait_for` and `retries = 1`, then decrement the
declared budget. -/
theorem processNextJobs_retry (P : Params) (job : String) (st : GMState)
    (gconf : JobConf) (r : Nat)
    (hg : alist.lookup st.jobsGraph job = some gconf)
    (hpar : gconf.parallel_arg = none)
    (hret : gconf.retries = some (r + 1)) :
    processNextJobs P job ["retry"] st = .ok
      {st with jobsGraph := alist.insert
                 (alist.insert st.jobsGraph job {gconf with parallel_arg := none}) job
                 {gconf with parallel_arg := none, retries := some r},
               pending := alist.insert st.pending job
                 ⟨[], 1, gconf.required_resources.getD [], none, gconf.wait_time⟩} := by
  have hlk : alist.lookup
      (alist.insert st.jobsGraph job {gconf with parallel_arg := none}) job
      = some {gconf with parallel_arg := none} := by
    rw [alist.lookup_insert, if_pos rfl]
  have hpos : 0 < gconf.retries.getD 0 := by rw [hret]; simp
  unfold processNextJobs
  simp only [eq_self_iff_true, if_true, hg]
  rw [if_pos hpos]
  rw [addPendingJob_nonparallel P.parallelization job [] 1 st gconf hg hpar]
  simp only [Bind.bind, Except.bind]
  rw [hlk]
  unfold processNextJobs
  simp only [hret, Option.getD_some, Nat.add_sub_cancel]
  rfl

/-! ## Claim theorems (continued) -/

/-- C2: in every ledger state reachable from the `_fill_available_resources`
initial state by any sequence of `_try_acquire_resources` and
`_release_resources` calls, for each resource `r` the available amount plus
the sum of all amounts recorded for `r` in the acquired ledger equals the
initial capacity of `r` — the maximum amount of `r` appearing in any resource
set of any task. -/
theorem c2_resource_conservation (g : List (String × JobConf)) (st : Ledger)
    (r : String) (hr : ReachLedger g st) :
    st.available r + sumAmounts (acquiredOf st.acquired r)
      = specInitialCapacity g r := by
  rw [← fillAvailable_eq_specInitialCapacity]
  exact (reach_invariant g st hr).1 r

/-- C2 witness: the invariant applied to `exC2Graph` in the state reached by
one acquisition for task `t`. -/
theorem c2_witness :
    exC2Ledger.available "cpu" + sumAmounts (acquiredOf exC2Ledger.acquired "cpu")
      = specInitialCapacity exC2Graph "cpu" :=
  c2_resource_conservation exC2Graph exC2Ledger "cpu"
    (ReachLedger.acq "t" {required_resources := some [[("cpu", 3)]]}
      (Ledger.init exC2Graph) ReachLedger.init rfl)

/-- C3 (amended): with at least one declared resource set, acquisition takes
exactly the first fitting set (returning `true` with the ledger mutated by
`acquireSet` on that set); if none of the sets fits it returns `false` with
the ledger — available map and acquired ledger — completely unchanged, and
the Pass-A step then leaves the whole state (in particular the pending map)
unchanged.  With an *empty* set list the source returns `true` without any
change (see the counterexample). -/
theorem c3_first_fit_semantics (job : String) (sets : List ResourceSet)
    (st : Ledger) (hne : sets ≠ []) :
    (∀ pre s post, sets = pre ++ s :: post →
        (∀ t ∈ pre, setFits st.available t = false) →
        setFits st.available s = true →
        tryAcquireResources job sets st = (true, acquireSet job s st))
      ∧ ((∀ s ∈ sets, setFits st.available s = false) →
          tryAcquireResources job sets st = (false, st))
      ∧ (∀ (sched : String → Nat → Option String) (elapsed : ℚ) (gst : GMState)
           (conf : PendingConf) (gconf : JobConf),
          gst.ledger = st →
          alist.lookup gst.pending job = some conf →
          conf.wait_for.isEmpty = true →
          mustWaitTime elapsed conf = false →
          alist.lookup gst.jobsGraph job = some gconf →
          gconf.required_resources.getD [] = sets →
          (tryAcquireResources job sets st).1 = false →
          passAStep sched elapsed job gst = .ok gst) := by
  refine ⟨?_, ?_, ?_⟩
  · intro pre s post heq hpre hfit
    subst heq
    have hred : tryAcquireResources job (pre ++ s :: post) st
        = firstFit job (pre ++ s :: post) st := by
      cases pre <;> rfl
    rw [hred]
    exact firstFit_found job pre s post st hpre hfit
  · intro hall
    cases sets with
    | nil => exact absurd rfl hne
    | cons s rest =>
      have hred : tryAcquireResources job (s :: rest) st
          = firstFit job (s :: rest) st := rfl
      rw [hred]
      exact firstFit_all_fail job (s :: rest) st hall
  · intro sched elapsed gst conf gconf hl hp hw ht hg hreq hfalse
    unfold passAStep
    rw [hp, hg]
    simp only [hw, ht, Bool.not_false, Bool.and_self, if_true]
    rw [hreq, hl, tryAcquire_false_unchanged job sets st hfalse]
    simp only [Bool.false_eq_true, if_false]
    rw [← hl]

/-- C3 witness: the first set of `exC3Sets` fits the ledger with 5 cpu, so it
is taken. -/
theorem c3_witness :
    tryAcquireResources "j" exC3Sets exC3Ledger
      = (true, acquireSet "j" [("cpu", 2)] exC3Ledger) :=
  (c3_first_fit_semantics "j" exC3Sets exC3Ledger (by simp [exC3Sets])).1
    [] [("cpu", 2)] [[("cpu", 1)]] rfl (by simp) (by rfl)

/-- C6: handling the `"retry"` sentinel for a finished job whose declared
task has a positive budget re-adds the task to pending with `retries = 1` and
decrements the declared budget; concretely, with a budget of 2 and a backend
failing every run (`on_finish.failed = ["retry"]`), the task is submitted on
each of exactly three consecutive ticks (visible as the running entry and the
budget in the tick-by-tick trajectory) and the fourth tick drops it and
signals completion. -/
theorem c6_retry_budget :
    (∀ (P : Params) (job outcome : String) (st : GMState) (gconf : JobConf) (r : Nat),
        P.onlyStartingJobs = false →
        alist.lookup st.jobsGraph job = some gconf →
        gconf.parallel_arg = none →
        gconf.retries = some (r + 1) →
        alist.lookup (gconf.on_finish.getD []) outcome = some ["retry"] →
        ∃ st2, handleFinished P job outcome st = .ok st2
          ∧ alist.lookup st2.pending job
              = some ⟨[], 1, gconf.required_resources.getD [], none, gconf.wait_time⟩
          ∧ ∃ gconf2, alist.lookup st2.jobsGraph job = some gconf2
              ∧ gconf2.retries = some r)
      ∧ workflowLoop exC6Params exC6State0 = .ok (true, exC6State1)
      ∧ workflowLoop exC6Params exC6State1 = .ok (true, exC6State2)
      ∧ workflowLoop exC6Params exC6State2 = .ok (true, exC6State3)
      ∧ workflowLoop exC6Params exC6State3 = .ok (false, exC6State4)
      ∧ exC6State4.pending = [] ∧ exC6State4.running = [] := by
  refine ⟨?_, rfl, rfl, rfl, rfl, rfl, rfl⟩
  intro P job outcome st gconf r hosj hg hpar hret hroute
  have h1 : alist.lookup (st.jobsGraph.map (fun q => (q.1, graphEraseWait job q.2))) job
      = some (graphEraseWait job gconf) := by
    rw [alist.lookup_map (graphEraseWait job) st.jobsGraph job, hg]
    rfl
  have hof : (graphEraseWait job gconf).on_finish = gconf.on_finish := rfl
  simp only [handleFinished]
  have hnext : getNextJobs P job outcome
      {st with
        pending := (st.pending.map (fun q => (q.1, pendingDiscardWait job q.2))),
        jobsGraph := (st.jobsGraph.map (fun q => (q.1, graphEraseWait job q.2)))}
      = .ok ["retry"] := by
    unfold getNextJobs
    simp only [hosj, Bool.false_eq_true, if_false, h1, hof, hroute]
  rw [hnext]
  simp only [Bind.bind, Except.bind]
  rw [processNextJobs_retry P job _ (graphEraseWait job gconf) r h1 hpar hret]
  refine ⟨_, rfl, ?_, ?_⟩
  · rw [alist.lookup_insert, if_pos rfl]
    rfl
  · refine ⟨{graphEraseWait job gconf with parallel_arg := none, retries := some r}, ?_, rfl⟩
    rw [alist.lookup_insert, if_pos rfl]

/-- C6 witness: the retry-step equation applied to the concrete C6 state of
tick 2 (job `A` just finished `failed` with budget 2). -/
theorem c6_witness :
    ∃ st2, handleFinished exC6Params "A" "failed" exC6State1 = .ok st2
      ∧ alist.lookup st2.pending "A" = some ⟨[], 1, [], none, none⟩
      ∧ ∃ gconf2, alist.lookup st2.jobsGraph "A" = some gconf2
          ∧ gconf2.retries = some 1 := by
  obtain ⟨st2, hh, hp, hgr⟩ := c6_retry_budget.1 exC6Params "A" "failed" exC6State1
    exC6Conf 1 rfl rfl rfl rfl rfl
  exact ⟨st2, hh, hp, hgr⟩

/-- The amount a resource set requests for `r` (`0` when `r` is absent): an
observer used to state C8. -/
def amountOf (s : ResourceSet) (r : String) : ℚ :=
  ((s.find? (fun p => p.1 == r)).map Prod.snd).getD 0

theorem amountOf_scale (N : Nat) (s : ResourceSet) (r : String) :
    amountOf (scaleResourceSet N s) r = amountOf s r / (N : ℚ) := by
  induction s with
  | nil => simp [amountOf, scaleResourceSet]
  | cons p rest ih =>
    simp only [scaleResourceSet, List.map_cons] at ih ⊢
    by_cases h : (p.1 == r) = true
    · simp [amountOf, List.find?_cons_of_pos, h]
    · have h2 : (p.1 == r) = false := by
        cases hb : (p.1 == r)
        · rfl
        · exact absurd hb h
      unfold amountOf at ih ⊢
      rw [List.find?_cons_of_neg, List.find?_cons_of_neg]
      · exact ih
      · simpa using h2
      · simpa using h2

/-- Whenever `buildUnit` (the body of the fan-out loop of
`_add_pending_job`) succeeds for unit `i`, the pending record it inserts for
that unit carries exactly the base declaration's resource sets scaled by the
unit split — the `on_finish` surgery for units `i ≠ 0` touches no other
field. -/
theorem buildUnit_pending_resources (N : Nat) (job pa : String) (base : JobConf)
    (wf : List String) (rt : Nat) (wt : Option ℚ) (i : Nat)
    (gp gp' : (List (String × JobConf)) × (List (String × PendingConf)))
    (h : buildUnit N job pa base wf rt wt gp i = .ok gp') :
    ∃ rec, alist.lookup gp'.2 (unitName job i) = some rec
      ∧ rec.required_resources = scaleRequired N (base.required_resources.getD []) := by
  simp only [buildUnit, Bind.bind, Except.bind] at h
  split at h
  · exact Except.noConfusion h
  · rename_i x v heq
    cases h
    refine ⟨⟨setOfList wf, rt, v.2.2.required_resources.getD [], some job, wt⟩, ?_, ?_⟩
    · rw [alist.lookup_insert, if_pos rfl]
    · split at heq
      · split at heq
        · cases heq; rfl
        · split at heq
          · exact Except.noConfusion heq
          · cases heq; rfl
      · cases heq; rfl

/-- C8: fan-out expansion gives each of the `N` units exactly the declared
resource sets with every amount scaled by `1/N` as an exact rational, so
that for each resource the sum over the `N` units of the scaled amounts
equals the original task's declared amount exactly, with no rounding. -/
theorem c8_fanout_scaling (N : Nat) (hN : 0 < N) :
    (∀ (job pa : String) (base : JobConf) (wf : List String) (rt : Nat)
        (wt : Option ℚ) (i : Nat)
        (gp gp' : (List (String × JobConf)) × (List (String × PendingConf))),
        buildUnit N job pa base wf rt wt gp i = .ok gp' →
        ∃ rec, alist.lookup gp'.2 (unitName job i) = some rec
          ∧ rec.required_resources = scaleRequired N (base.required_resources.getD []))
      ∧ (∀ s : ResourceSet,
          scaleResourceSet N s = s.map (fun p => (p.1, p.2 * (1 / (N : ℚ)))))
      ∧ (∀ (s : ResourceSet) (r : String),
          ((List.range N).map (fun _ => amountOf (scaleResourceSet N s) r)).sum
            = amountOf s r) := by
  have hN0 : (N : ℚ) ≠ 0 := Nat.cast_ne_zero.mpr (Nat.pos_iff_ne_zero.mp hN)
  refine ⟨?_, ?_, ?_⟩
  · intro job pa base wf rt wt i gp gp' h
    exact buildUnit_pending_resources N job pa base wf rt wt i gp gp' h
  · intro s
    unfold scaleResourceSet
    apply List.map_congr_left
    intro p _
    rw [div_eq_mul_inv, one_div]
  · intro s r
    rw [amountOf_scale]
    rw [List.map_const', List.length_range, List.sum_replicate, nsmul_eq_mul]
    rw [mul_comm, div_mul_cancel₀ _ hN0]

/-- C8 witness: with `N = 3`, the three units of a set requesting 2 cpu each
get a third and sum back to exactly 2. -/
theorem c8_witness :
    ((List.range 3).map (fun _ => amountOf (scaleResourceSet 3 [("cpu", 2)]) "cpu")).sum
      = amountOf [("cpu", 2)] "cpu" :=
  (c8_fanout_scaling 3 (by omega)).2.2 [("cpu", 2)] "cpu"

/-- C10: the `"retry"` re-add path calls `_add_pending_job(job, retries=1)`
with the default empty `wait_for`, so the new pending record carries an empty
wait_for set — the declared task's `wait_for` is not reinstated — and the job
is Pass-A eligible (admitted and moved to running) as soon as its wait timer
has elapsed and resource acquisition succeeds, regardless of its declared
dependencies. -/
theorem c10_retry_empty_waitfor (N : Nat) (job : String) (st : GMState)
    (gconf : JobConf)
    (hg : alist.lookup st.jobsGraph job = some gconf)
    (hpar : gconf.parallel_arg = none) :
    ∃ st1, addPendingJob N job [] 1 st = .ok st1
      ∧ alist.lookup st1.pending job
          = some ⟨[], 1, gconf.required_resources.getD [], none, gconf.wait_time⟩
      ∧ ∀ (sched : String → Nat → Option String) (elapsed : ℚ),
          mustWaitTime elapsed ⟨[], 1, gconf.required_resources.getD [], none,
            gconf.wait_time⟩ = false →
          ∀ gconf1, alist.lookup st1.jobsGraph job = some gconf1 →
          (tryAcquireResources job (gconf1.required_resources.getD []) st1.ledger).1 = true →
          ∃ st2, passAStep sched elapsed job st1 = .ok st2
            ∧ alist.lookup st2.pending job = none
            ∧ alist.lookup st2.running job = some (sched job 1) := by
  refine ⟨_, addPendingJob_nonparallel N job [] 1 st gconf hg hpar, ?_, ?_⟩
  · rw [alist.lookup_insert, if_pos rfl]
    rfl
  · intro sched elapsed hmw gconf1 hg1 hacq
    have hp : alist.lookup (alist.insert st.pending job
        ⟨setOfList [], 1, gconf.required_resources.getD [], none, gconf.wait_time⟩) job
        = some ⟨[], 1, gconf.required_resources.getD [], none, gconf.wait_time⟩ := by
      rw [alist.lookup_insert, if_pos rfl]
      rfl
    refine ⟨_, passAStep_admits sched elapsed job _
      ⟨[], 1, gconf.required_resources.getD [], none, gconf.wait_time⟩ gconf1
      hp rfl hmw hg1 hacq, ?_, ?_⟩
    · exact lookup_erase _ job
    · rw [alist.lookup_insert, if_pos rfl]

/-- C10 witness: the theorem applied to the concrete declared task `a` with a
non-empty declared `wait_for`. -/
theorem c10_witness :
    ∃ st1, addPendingJob 1 "a" [] 1 exC10State = .ok st1
      ∧ alist.lookup st1.pending "a" = some ⟨[], 1, [], none, none⟩ := by
  obtain ⟨st1, h1, h2, _⟩ :=
    c10_retry_empty_waitfor 1 "a" exC10State exC10Conf rfl rfl
  exact ⟨st1, h1, h2⟩

end ShubWorkflow
